import Mathlib

/-!
Verification of the rclone transfer-automation backend
(`evalit/rclone/rclone_automation.py`).

The development shallowly embeds the two operations the specification talks
about:

* `parse_log` — the log timing parser (`RcloneAutomation.parse_log`): a scan
  over the lines of an rclone log that accumulates per-file
  `TransferDTO` records in an insertion-ordered map (`timekeeper` dict in the
  source).  Python exceptions (`IndexError` from `line.split(":")[3]`,
  `ValueError` from `datetime.strptime`) are modelled with `Except`.
* `run_automation` — the driver (`RcloneAutomation.run_automation`): config
  key reads, temporary-file creation/removal and the external process call,
  modelled as explicit state passing over a `RunState` that records which
  temporary files exist and whether the process was spawned.

Python string primitives used by the source (`str.split`, `str.strip`,
`str.find`, `datetime.strptime` with format `%Y/%m/%d %H:%M:%S`) are embedded
as executable functions over `List Char`.
-/

set_option autoImplicit false

/-- ASCII whitespace as recognized by Python `str.strip()` / regex `\s`
(space, tab, newline, carriage return, vertical tab, form feed). -/
def isPyWS (c : Char) : Bool :=
  c = ' ' || c = '\t' || c = '\n' || c = '\r' || c = '\x0b' || c = '\x0c'

/-- Python `str.strip()` on a character list: drop leading and trailing
whitespace. -/
def stripL (cs : List Char) : List Char :=
  ((cs.dropWhile isPyWS).reverse.dropWhile isPyWS).reverse

/-- Python `str.strip()`. -/
def pyStrip (s : String) : String := ⟨stripL s.toList⟩

/-- Does `cs` start with `pat`? -/
def startsWithL : List Char → List Char → Bool
  | _, [] => true
  | [], _ :: _ => false
  | c :: cs, p :: ps => c = p && startsWithL cs ps

/-- Does the pattern `pat` occur as a contiguous substring? -/
def hasSubAux (pat : List Char) : List Char → Bool
  | [] => startsWithL [] pat
  | c :: cs => startsWithL (c :: cs) pat || hasSubAux pat cs

/-- Python `s.find(pat) != -1`: substring containment test. -/
def hasSub (s pat : String) : Bool := hasSubAux pat.toList s.toList

/-- Python `str.split(sep)` on character lists (leftmost, non-overlapping
occurrences of a non-empty separator; `acc` holds the current piece
reversed).  Structural recursion on a fuel argument so that the function
reduces in the kernel; each step consumes at least one input character, so
fuel equal to the input length makes the fuel-exhausted branch
unreachable. -/
def splitLAux (pat : List Char) : Nat → List Char → List Char → List (List Char)
  | _, acc, [] => [acc.reverse]
  | 0, acc, _ :: _ => [acc.reverse]
  | fuel + 1, acc, c :: cs =>
    if startsWithL (c :: cs) pat then
      acc.reverse :: splitLAux pat fuel [] (cs.drop (pat.length - 1))
    else
      splitLAux pat fuel (c :: acc) cs

/-- Python `s.split(sep)` for a non-empty separator. -/
def pySplit (s sep : String) : List String :=
  (splitLAux sep.toList s.toList.length [] s.toList).map (fun l => ⟨l⟩)

/-- A parsed timestamp, as produced by
`datetime.strptime(s, "%Y/%m/%d %H:%M:%S")`. -/
structure DateTime where
  year : Nat
  month : Nat
  day : Nat
  hour : Nat
  minute : Nat
  second : Nat
deriving DecidableEq, Repr

/-- Numeric value of a decimal digit character. -/
def dv (c : Char) : Nat := c.toNat - 48

/-- Consume one expected literal character (a literal in the strptime
format string). -/
def pChar (c : Char) : List Char → Option (List Char)
  | [] => none
  | x :: xs => if x = c then some xs else none

/-- `%Y`: exactly four decimal digits (CPython `_strptime` regex
`\d\d\d\d`). -/
def pYear : List Char → Option (Nat × List Char)
  | a :: b :: c :: d :: rest =>
    if a.isDigit && b.isDigit && c.isDigit && d.isDigit then
      some (dv a * 1000 + dv b * 100 + dv c * 10 + dv d, rest)
    else none
  | _ => none

/-- `%m`: CPython regex `1[0-2]|0[1-9]|[1-9]`, alternatives tried in
order. -/
def pMonth : List Char → Option (Nat × List Char)
  | c1 :: c2 :: rest =>
    if c1 = '1' && ('0' ≤ c2 && c2 ≤ '2') then some (10 + dv c2, rest)
    else if c1 = '0' && ('1' ≤ c2 && c2 ≤ '9') then some (dv c2, rest)
    else if '1' ≤ c1 && c1 ≤ '9' then some (dv c1, c2 :: rest)
    else none
  | [c1] => if '1' ≤ c1 && c1 ≤ '9' then some (dv c1, []) else none
  | [] => none

/-- `%d`: CPython regex `3[01]|[12]\d|0[1-9]|[1-9]| [1-9]`. -/
def pDay : List Char → Option (Nat × List Char)
  | c1 :: c2 :: rest =>
    if c1 = '3' && (c2 = '0' || c2 = '1') then some (30 + dv c2, rest)
    else if (c1 = '1' || c1 = '2') && c2.isDigit then some (dv c1 * 10 + dv c2, rest)
    else if c1 = '0' && ('1' ≤ c2 && c2 ≤ '9') then some (dv c2, rest)
    else if '1' ≤ c1 && c1 ≤ '9' then some (dv c1, c2 :: rest)
    else if c1 = ' ' && ('1' ≤ c2 && c2 ≤ '9') then some (dv c2, rest)
    else none
  | [c1] => if '1' ≤ c1 && c1 ≤ '9' then some (dv c1, []) else none
  | [] => none

/-- `%H`: CPython regex `2[0-3]|[0-1]\d|\d`. -/
def pHour : List Char → Option (Nat × List Char)
  | c1 :: c2 :: rest =>
    if c1 = '2' && ('0' ≤ c2 && c2 ≤ '3') then some (20 + dv c2, rest)
    else if (c1 = '0' || c1 = '1') && c2.isDigit then some (dv c1 * 10 + dv c2, rest)
    else if c1.isDigit then some (dv c1, c2 :: rest)
    else none
  | [c1] => if c1.isDigit then some (dv c1, []) else none
  | [] => none

/-- `%M`: CPython regex `[0-5]\d|\d`. -/
def pMinute : List Char → Option (Nat × List Char)
  | c1 :: c2 :: rest =>
    if ('0' ≤ c1 && c1 ≤ '5') && c2.isDigit then some (dv c1 * 10 + dv c2, rest)
    else if c1.isDigit then some (dv c1, c2 :: rest)
    else none
  | [c1] => if c1.isDigit then some (dv c1, []) else none
  | [] => none

/-- `%S`: CPython regex `6[0-1]|[0-5]\d|\d`. -/
def pSecond : List Char → Option (Nat × List Char)
  | c1 :: c2 :: rest =>
    if c1 = '6' && (c2 = '0' || c2 = '1') then some (60 + dv c2, rest)
    else if ('0' ≤ c1 && c1 ≤ '5') && c2.isDigit then some (dv c1 * 10 + dv c2, rest)
    else if c1.isDigit then some (dv c1, c2 :: rest)
    else none
  | [c1] => if c1.isDigit then some (dv c1, []) else none
  | [] => none

/-- A whitespace character in the format string matches `\s+`. -/
def pWS : List Char → Option (List Char)
  | c :: cs => if isPyWS c then some (cs.dropWhile isPyWS) else none
  | [] => none

/-- Gregorian leap year, as used by `datetime`'s date validation. -/
def isLeap (y : Nat) : Bool := (y % 4 = 0 && y % 100 ≠ 0) || y % 400 = 0

/-- Days in a month, as used by `datetime`'s date validation. -/
def daysInMonth (y mo : Nat) : Nat :=
  if mo = 2 then (if isLeap y then 29 else 28)
  else if mo = 4 || mo = 6 || mo = 9 || mo = 11 then 30
  else 31

/-- `datetime.strptime(s, "%Y/%m/%d %H:%M:%S")`: `none` models the
`ValueError` raised on a string that does not match the format (including
trailing unconverted data and the `datetime` constructor's range checks). -/
def strptimeYmdHMS (s : String) : Option DateTime := do
  let (y, r1) ← pYear s.toList
  let r2 ← pChar '/' r1
  let (mo, r3) ← pMonth r2
  let r4 ← pChar '/' r3
  let (d, r5) ← pDay r4
  let r6 ← pWS r5
  let (h, r7) ← pHour r6
  let r8 ← pChar ':' r7
  let (mi, r9) ← pMinute r8
  let r10 ← pChar ':' r9
  let (se, r11) ← pSecond r10
  if r11 = [] && 1 ≤ y && d ≤ daysInMonth y mo && se ≤ 59 then
    pure ⟨y, mo, d, h, mi, se⟩
  else none

/-- The shared result entity (`TransferDTO` in `evalit/structures.py`, not
shipped with the sources under verification).  Modelled from the spec: one
record per transferred file with identity, backend name, and optional
start/end timestamps; `parse_log` constructs it as
`TransferDTO(fname=..., transferer="rclone")` and then assigns
`start_time` / `end_time`. -/
structure TransferDTO where
  fname : String
  transferer : String
  start_time : Option DateTime := none
  end_time : Option DateTime := none
deriving DecidableEq, Repr

/-- Python exceptions that can escape a single iteration of the
`parse_log` loop. -/
inductive PErr where
  /-- `IndexError` from `line.split(":")[3]` on a line with fewer than
  four colon-separated fields. -/
  | indexError
  /-- `ValueError` from `datetime.strptime` on an unparseable timestamp. -/
  | valueError
deriving DecidableEq, Repr

/-- The `timekeeper` dict: insertion-ordered map from file identity to
record (Python dicts preserve insertion order; `values()` is iterated in
that order at the end of `parse_log`). -/
abbrev Timekeeper : Type := List (String × TransferDTO)

/-- `timekeeper.get(fname)` — first (unique) binding of the key. -/
def tkGet : Timekeeper → String → Option TransferDTO
  | [], _ => none
  | (k, v) :: rest, f => if k = f then some v else tkGet rest f

/-- `timekeeper[fname] = dto` — overwrite in place if the key is bound,
otherwise append at the end (dict insertion order). -/
def tkSet : Timekeeper → String → TransferDTO → Timekeeper
  | [], f, v => [(f, v)]
  | (k, w) :: rest, f, v =>
    if k = f then (k, v) :: rest else (k, w) :: tkSet rest f v

/-- First marker substring of the start branch of `parse_log`. -/
def startMarker1 : String := "multipart upload starting chunk 1 size"

/-- Second marker substring of the start branch of `parse_log`. -/
def startMarker2 : String := "Transferring unconditionally"

/-- First `if` statement of the `for line in log` loop of
`RcloneAutomation.parse_log`: on a start-marker line, extract the file
identity as `line.split(":")[3].strip()` (`IndexError` on fewer than four
fields), get-or-create the record, and set `start_time` from
`line.split("DEBUG")[0].strip()` (`ValueError` if unparseable). -/
def startBranch (st : Timekeeper) (line : String) : Except PErr Timekeeper :=
  if hasSub line startMarker1 || hasSub line startMarker2 then
    match (pySplit line ":")[3]? with
    | none => .error .indexError
    | some p3 =>
      let fname := pyStrip p3
      let dto := (tkGet st fname).getD { fname := fname, transferer := "rclone" }
      match strptimeYmdHMS (pyStrip ((pySplit line "DEBUG").headD "")) with
      | none => .error .valueError
      | some t => .ok (tkSet st fname { dto with start_time := some t })
  else .ok st

/-- Second `if` statement of the loop: on a line containing `"Copied"`,
extract the file identity the same way, get-or-create the record, and set
`end_time` from `line.split("INFO")[0].strip()`. -/
def copiedBranch (st : Timekeeper) (line : String) : Except PErr Timekeeper :=
  if hasSub line "Copied" then
    match (pySplit line ":")[3]? with
    | none => .error .indexError
    | some p3 =>
      let fname := pyStrip p3
      let dto := (tkGet st fname).getD { fname := fname, transferer := "rclone" }
      match strptimeYmdHMS (pyStrip ((pySplit line "INFO").headD "")) with
      | none => .error .valueError
      | some t => .ok (tkSet st fname { dto with end_time := some t })
  else .ok st

/-- One iteration of the `for line in log` loop: the two `if` statements
run in sequence on the same `timekeeper` (they are independent tests, not
an `if`/`elif`); an exception in the first aborts the iteration before the
second runs. -/
def processLine (st : Timekeeper) (line : String) : Except PErr Timekeeper :=
  match startBranch st line with
  | .error e => .error e
  | .ok st1 => copiedBranch st1 line

instance {ε α : Type} [DecidableEq ε] [DecidableEq α] : DecidableEq (Except ε α) :=
  fun x y =>
    match x, y with
    | .ok a, .ok b =>
      if h : a = b then isTrue (by rw [h]) else
        isFalse (by intro hc; cases hc; exact h rfl)
    | .ok _, .error _ => isFalse (by intro hc; cases hc)
    | .error _, .ok _ => isFalse (by intro hc; cases hc)
    | .error e, .error f =>
      if h : e = f then isTrue (by rw [h]) else
        isFalse (by intro hc; cases hc; exact h rfl)

/-- The loop of `parse_log` over the lines of the log; an uncaught
exception in any iteration aborts the whole scan. -/
def processLines (st : Timekeeper) : List String → Except PErr Timekeeper
  | [] => .ok st
  | l :: ls =>
    match processLine st l with
    | .error e => .error e
    | .ok st' => processLines st' ls

/-- `RcloneAutomation.parse_log`, over the list of lines of the log text:
scan all lines starting from an empty `timekeeper`, then return
`tuple(timekeeper.values())`. -/
def parse_log (lines : List String) : Except PErr (List TransferDTO) :=
  match processLines [] lines with
  | .error e => .error e
  | .ok st => .ok (st.map (fun kv => kv.2))

/-- Condition of the first `if` of the loop body: the line carries a start
marker. -/
def isStartLine (line : String) : Bool :=
  hasSub line startMarker1 || hasSub line startMarker2

/-- Condition of the second `if` of the loop body: the line carries the
completion marker. -/
def isCopiedLine (line : String) : Bool := hasSub line "Copied"

/-- The file identity both branches extract: `line.split(":")[3].strip()`
(`none` models the `IndexError` on fewer than four fields). -/
def lineFname (line : String) : Option String :=
  ((pySplit line ":")[3]?).map pyStrip

/-- The timestamp the start branch extracts:
`strptime(line.split("DEBUG")[0].strip(), ...)`. -/
def lineStartTime (line : String) : Option DateTime :=
  strptimeYmdHMS (pyStrip ((pySplit line "DEBUG").headD ""))

/-- The timestamp the completion branch extracts:
`strptime(line.split("INFO")[0].strip(), ...)`. -/
def lineEndTime (line : String) : Option DateTime :=
  strptimeYmdHMS (pyStrip ((pySplit line "INFO").headD ""))

/-- A line on which the loop body raises no exception: each branch, when its
marker fires, finds a fourth field and a parseable timestamp.  Whether the
body raises is independent of the `timekeeper` state. -/
def lineOk (line : String) : Bool :=
  (!isStartLine line || ((lineFname line).isSome && (lineStartTime line).isSome)) &&
  (!isCopiedLine line || ((lineFname line).isSome && (lineEndTime line).isSome))

/-- A line whose marker branches (if any fire) do not touch identity `f`. -/
def noMarkerFor (f line : String) : Bool :=
  !(isStartLine line || isCopiedLine line) || !(lineFname line == some f)

/-- A line whose start branch (if it fires) does not touch identity `f`
(its completion branch may). -/
def noStartFor (f line : String) : Bool :=
  !isStartLine line || !(lineFname line == some f)

/-- Effect of the start branch on the record for `f`: get-or-create, then
set `start_time`. -/
def applyStart (old : Option TransferDTO) (f : String) (t : DateTime) : TransferDTO :=
  { (old.getD { fname := f, transferer := "rclone" }) with start_time := some t }

/-- Effect of the completion branch on the record for `f`: get-or-create,
then set `end_time`. -/
def applyEnd (old : Option TransferDTO) (f : String) (t : DateTime) : TransferDTO :=
  { (old.getD { fname := f, transferer := "rclone" }) with end_time := some t }

/-- Errors that can escape `RcloneAutomation.run_automation`. -/
inductive RunErr where
  /-- Python `KeyError` from `self.config[k]` on a missing key `k`. -/
  | keyError (k : String)
  /-- `ProcessFailure` surfaced by the shell executor when the external
  rclone process fails (modelled from the spec: the Process Runner reports
  a non-zero exit status as a `ProcessFailure` error; `ShellExecutor` is
  not among the sources under verification). -/
  | processFailure
  /-- An exception escaping `parse_log`. -/
  | parseErr (e : PErr)
deriving DecidableEq, Repr

/-- Which on-disk artifacts of one `run_automation` call exist, and whether
the external process was spawned. -/
structure RunState where
  /-- The rclone log temp file (created with `delete=False`, never removed
  by the source). -/
  logFileExists : Bool
  /-- The rclone credential/config temp file returned by
  `_generate_rclone_cfg` (deleted by `rclone_config_file.close()`). -/
  cfgFileExists : Bool
  /-- Whether `self.shell_executor(cmd)` was reached. -/
  spawned : Bool
deriving DecidableEq, Repr

/-- Sequential `self.config[k]` reads; the first missing key raises
`KeyError`. -/
def getKeys (cfg : String → Option String) : List String → Except RunErr (List String)
  | [] => .ok []
  | k :: ks =>
    match cfg k with
    | none => .error (.keyError k)
    | some v =>
      match getKeys cfg ks with
      | .error e => .error e
      | .ok vs => .ok (v :: vs)

/-- Config keys read by `run_automation` itself, in source order, before any
temp file is created. -/
def runAutomationKeys : List String :=
  ["source_s3_bucket", "source_s3_region", "dest_s3_bucket", "dest_s3_region"]

/-- Config keys read by `_generate_rclone_cfg`, in source order, before the
credential temp file is created. -/
def generateCfgKeys : List String :=
  ["source_token", "source_secret", "source_s3_endpoint",
   "dest_token", "dest_secret", "dest_s3_endpoint"]

/-- All config keys a run requires. -/
def requiredKeys : List String := runAutomationKeys ++ generateCfgKeys

/-- `RcloneAutomation.run_automation`, with the external world abstracted:
`cfg` is `self.config`, `shellOk` tells whether `self.shell_executor(cmd)`
returns normally (`false`: it raises, e.g. a `ProcessFailure` for a
non-zero exit status of the rclone process), and `logLines` is the content
the process left in the log temp file.  Mirrors the source's order of
effects: read the four bucket/region keys, create the log temp file
(`delete=False`), run `_generate_rclone_cfg` (read the six credential keys,
then create the config temp file), invoke the shell executor, close (and
thereby delete) the config temp file, and finally parse the log.  There is
no `try`/`finally`: an exception anywhere propagates immediately, skipping
the remaining steps. -/
def run_automation (cfg : String → Option String) (shellOk : Bool)
    (logLines : List String) : Except RunErr (List TransferDTO) × RunState :=
  match getKeys cfg runAutomationKeys with
  | .error e => (.error e, ⟨false, false, false⟩)
  | .ok _ =>
    match getKeys cfg generateCfgKeys with
    | .error e => (.error e, ⟨true, false, false⟩)
    | .ok _ =>
      if shellOk then
        match parse_log logLines with
        | .error e => (.error (.parseErr e), ⟨true, false, true⟩)
        | .ok recs => (.ok recs, ⟨true, false, true⟩)
      else (.error .processFailure, ⟨true, true, true⟩)

/-! ### Concrete inputs used to exercise the model -/

/-- First log line of the spec's example scenario. -/
def exampleStartLine : String :=
  "2024/01/01 10:00:00 DEBUG: msg: id: foo: Transferring unconditionally"

/-- Second log line of the spec's example scenario. -/
def exampleCopiedLine : String :=
  "2024/01/01 10:05:00 INFO: msg: id: foo: Copied"

/-- A start-marker line whose timestamp token is not in the
`%Y/%m/%d %H:%M:%S` format. -/
def badTimestampLine : String :=
  "BAD TIMESTAMP DEBUG: x: y: data1.bin: Transferring unconditionally"

/-- A completion-marker line (no start marker) whose timestamp token is
not in the `%Y/%m/%d %H:%M:%S` format. -/
def badCopiedLine : String :=
  "BAD: x: y: data1.bin: Copied"

/-- A single line carrying both a start marker and the completion
marker. -/
def bothMarkersLine : String :=
  "2024/01/01 10:00:00 DEBUG: x: y: data1.bin: Transferring unconditionally Copied"

/-- A well-formed rclone start-marker line for `data1.bin`. -/
def rcStartLine : String :=
  "2024/01/01 10:00:00 DEBUG : data1.bin: Transferring unconditionally"

/-- A well-formed rclone multipart start-marker line for `data1.bin`. -/
def rcStartLine2 : String :=
  "2024/01/01 10:02:30 DEBUG : data1.bin: multipart upload starting chunk 1 size 50M"

/-- A well-formed rclone completion line for `data1.bin`. -/
def rcCopiedLine : String :=
  "2024/01/01 10:05:00 INFO  : data1.bin: Copied (new)"

/-- A well-formed rclone start-marker line for a different file. -/
def otherStartLine : String :=
  "2024/01/01 10:03:00 DEBUG : other.bin: Transferring unconditionally"

/-- A log line matching no marker. -/
def junkLine : String :=
  "2024/01/01 10:01:00 DEBUG : 4 go routines active"

/-- A configuration with every key present. -/
def fullConfig : String → Option String := fun _ => some "value"

/-- A configuration missing the required key `dest_secret`. -/
def configMissingDestSecret : String → Option String :=
  fun k => if k = "dest_secret" then none else some "value"

/-! ### The state invariant of the scan -/

/-- Invariant of the `timekeeper` dict: keys are pairwise distinct, every
record is stored under its own file identity, carries
`transferer = "rclone"`, and has at least one timestamp set. -/
def TKInv (st : Timekeeper) : Prop :=
  (st.map Prod.fst).Nodup ∧
  ∀ kv ∈ st, kv.2.fname = kv.1 ∧ kv.2.transferer = "rclone" ∧
    (kv.2.start_time.isSome || kv.2.end_time.isSome) = true

/-! ### Map lemmas for the `timekeeper` dict -/

theorem tkGet_tkSet_same (st : Timekeeper) (f : String) (v : TransferDTO) :
    tkGet (tkSet st f v) f = some v := by
  induction st with
  | nil => simp [tkGet, tkSet]
  | cons kv rest ih =>
    obtain ⟨k, w⟩ := kv
    by_cases h : k = f
    · simp [tkGet, tkSet, h]
    · simp [tkGet, tkSet, h, ih]

theorem tkGet_tkSet_ne (st : Timekeeper) (f g : String) (v : TransferDTO)
    (h : g ≠ f) : tkGet (tkSet st f v) g = tkGet st g := by
  induction st with
  | nil => simp [tkGet, tkSet, Ne.symm h]
  | cons kv rest ih =>
    obtain ⟨k, w⟩ := kv
    by_cases hk : k = f
    · subst hk
      simp [tkGet, tkSet, Ne.symm h]
    · by_cases hg : k = g
      · simp [tkGet, tkSet, hk, hg, h]
      · simp [tkGet, tkSet, hk, hg, ih]

theorem mem_tkSet (st : Timekeeper) (f : String) (v : TransferDTO)
    (kv : String × TransferDTO) (h : kv ∈ tkSet st f v) :
    kv = (f, v) ∨ kv ∈ st := by
  induction st with
  | nil => simpa [tkSet] using h
  | cons kw rest ih =>
    obtain ⟨k, w⟩ := kw
    by_cases hk : k = f
    · subst hk
      simp only [tkSet, if_pos rfl] at h
      rcases List.mem_cons.mp h with h | h
      · exact Or.inl h
      · exact Or.inr (List.mem_cons_of_mem _ h)
    · simp only [tkSet, if_neg hk] at h
      rcases List.mem_cons.mp h with h | h
      · exact Or.inr (List.mem_cons.mpr (Or.inl h))
      · rcases ih h with h' | h'
        · exact Or.inl h'
        · exact Or.inr (List.mem_cons_of_mem _ h')

theorem tkGet_mem (st : Timekeeper) (f : String) (d : TransferDTO)
    (h : tkGet st f = some d) : (f, d) ∈ st := by
  induction st with
  | nil => simp [tkGet] at h
  | cons kw rest ih =>
    obtain ⟨k, w⟩ := kw
    by_cases hk : k = f
    · subst hk
      simp [tkGet] at h
      subst h
      exact List.mem_cons_self _ _
    · simp only [tkGet, if_neg hk] at h
      exact List.mem_cons_of_mem _ (ih h)

theorem tkGet_eq_none_iff (st : Timekeeper) (f : String) :
    tkGet st f = none ↔ f ∉ st.map Prod.fst := by
  induction st with
  | nil => simp [tkGet]
  | cons kw rest ih =>
    obtain ⟨k, w⟩ := kw
    by_cases hk : k = f
    · subst hk
      simp [tkGet]
    · simp only [tkGet, if_neg hk, List.map_cons, List.mem_cons]
      rw [ih]
      constructor
      · intro hnf hmem
        rcases hmem with h | h
        · exact hk h.symm
        · exact hnf h
      · intro hall h
        exact hall (Or.inr h)

theorem tkSet_map_fst_mem (st : Timekeeper) (f : String) (v : TransferDTO)
    (h : f ∈ st.map Prod.fst) :
    (tkSet st f v).map Prod.fst = st.map Prod.fst := by
  induction st with
  | nil => simp at h
  | cons kw rest ih =>
    obtain ⟨k, w⟩ := kw
    by_cases hk : k = f
    · simp [tkSet, hk]
    · have h' : f ∈ rest.map Prod.fst := by
        simp only [List.map_cons, List.mem_cons] at h
        rcases h with h | h
        · exact absurd h.symm hk
        · exact h
      simp [tkSet, hk, ih h']

theorem tkSet_map_fst_not_mem (st : Timekeeper) (f : String) (v : TransferDTO)
    (h : f ∉ st.map Prod.fst) :
    (tkSet st f v).map Prod.fst = st.map Prod.fst ++ [f] := by
  induction st with
  | nil => simp [tkSet]
  | cons kw rest ih =>
    obtain ⟨k, w⟩ := kw
    simp only [List.map_cons, List.mem_cons] at h
    push_neg at h
    obtain ⟨h1, h2⟩ := h
    have hkf : k ≠ f := fun hc => h1 hc.symm
    simp [tkSet, hkf, ih h2]

theorem TKInv_nil : TKInv [] :=
  ⟨by simp, by intro kv h; simp at h⟩

theorem TKInv_tkSet (st : Timekeeper) (f : String) (v : TransferDTO)
    (hinv : TKInv st) (hf : v.fname = f) (htr : v.transferer = "rclone")
    (hts : (v.start_time.isSome || v.end_time.isSome) = true) :
    TKInv (tkSet st f v) := by
  obtain ⟨hnd, hall⟩ := hinv
  refine ⟨?_, ?_⟩
  · by_cases hm : f ∈ st.map Prod.fst
    · rw [tkSet_map_fst_mem st f v hm]
      exact hnd
    · rw [tkSet_map_fst_not_mem st f v hm, List.nodup_append]
      refine ⟨hnd, List.nodup_singleton f, ?_⟩
      intro a ha hb
      simp only [List.mem_singleton] at hb
      subst hb
      exact hm ha
  · intro kv hkv
    rcases mem_tkSet st f v kv hkv with h | h
    · subst h
      exact ⟨hf, htr, hts⟩
    · exact hall kv h

/-! ### Characterization of the two branches of the loop body -/

theorem startBranch_no (st : Timekeeper) (l : String)
    (h : isStartLine l = false) : startBranch st l = .ok st := by
  have h' : (hasSub l startMarker1 || hasSub l startMarker2) = false := h
  simp [startBranch, h']

theorem startBranch_indexError (st : Timekeeper) (l : String)
    (hS : isStartLine l = true) (hf : lineFname l = none) :
    startBranch st l = .error .indexError := by
  have hS' : (hasSub l startMarker1 || hasSub l startMarker2) = true := hS
  have hp : (pySplit l ":")[3]? = none := by
    unfold lineFname at hf
    exact Option.map_eq_none'.mp hf
  simp [startBranch, hS', hp]

theorem startBranch_valueError (st : Timekeeper) (l f : String)
    (hS : isStartLine l = true) (hf : lineFname l = some f)
    (ht : lineStartTime l = none) :
    startBranch st l = .error .valueError := by
  have hS' : (hasSub l startMarker1 || hasSub l startMarker2) = true := hS
  obtain ⟨p3, hp3⟩ : ∃ p3, (pySplit l ":")[3]? = some p3 := by
    cases hq : (pySplit l ":")[3]? with
    | none => unfold lineFname at hf; rw [hq] at hf; simp at hf
    | some p => exact ⟨p, rfl⟩
  have ht' : strptimeYmdHMS (pyStrip ((pySplit l "DEBUG").head?.getD "")) = none := by
    simpa [lineStartTime] using ht
  simp [startBranch, hS', hp3, ht']

theorem startBranch_fire (st : Timekeeper) (l f : String) (t : DateTime)
    (hS : isStartLine l = true) (hf : lineFname l = some f)
    (ht : lineStartTime l = some t) :
    startBranch st l = .ok (tkSet st f (applyStart (tkGet st f) f t)) := by
  have hS' : (hasSub l startMarker1 || hasSub l startMarker2) = true := hS
  obtain ⟨p3, hp3⟩ : ∃ p3, (pySplit l ":")[3]? = some p3 := by
    cases hq : (pySplit l ":")[3]? with
    | none => unfold lineFname at hf; rw [hq] at hf; simp at hf
    | some p => exact ⟨p, rfl⟩
  have hps : pyStrip p3 = f := by
    unfold lineFname at hf
    rw [hp3] at hf
    simpa using hf
  have ht' : strptimeYmdHMS (pyStrip ((pySplit l "DEBUG").head?.getD "")) = some t := by
    simpa [lineStartTime] using ht
  simp [startBranch, hS', hp3, ht', hps, applyStart]

theorem copiedBranch_no (st : Timekeeper) (l : String)
    (h : isCopiedLine l = false) : copiedBranch st l = .ok st := by
  have h' : hasSub l "Copied" = false := h
  simp [copiedBranch, h']

theorem copiedBranch_indexError (st : Timekeeper) (l : String)
    (hC : isCopiedLine l = true) (hf : lineFname l = none) :
    copiedBranch st l = .error .indexError := by
  have hC' : hasSub l "Copied" = true := hC
  have hp : (pySplit l ":")[3]? = none := by
    unfold lineFname at hf
    exact Option.map_eq_none'.mp hf
  simp [copiedBranch, hC', hp]

theorem copiedBranch_valueError (st : Timekeeper) (l f : String)
    (hC : isCopiedLine l = true) (hf : lineFname l = some f)
    (ht : lineEndTime l = none) :
    copiedBranch st l = .error .valueError := by
  have hC' : hasSub l "Copied" = true := hC
  obtain ⟨p3, hp3⟩ : ∃ p3, (pySplit l ":")[3]? = some p3 := by
    cases hq : (pySplit l ":")[3]? with
    | none => unfold lineFname at hf; rw [hq] at hf; simp at hf
    | some p => exact ⟨p, rfl⟩
  have ht' : strptimeYmdHMS (pyStrip ((pySplit l "INFO").head?.getD "")) = none := by
    simpa [lineEndTime] using ht
  simp [copiedBranch, hC', hp3, ht']

theorem copiedBranch_fire (st : Timekeeper) (l f : String) (t : DateTime)
    (hC : isCopiedLine l = true) (hf : lineFname l = some f)
    (ht : lineEndTime l = some t) :
    copiedBranch st l = .ok (tkSet st f (applyEnd (tkGet st f) f t)) := by
  have hC' : hasSub l "Copied" = true := hC
  obtain ⟨p3, hp3⟩ : ∃ p3, (pySplit l ":")[3]? = some p3 := by
    cases hq : (pySplit l ":")[3]? with
    | none => unfold lineFname at hf; rw [hq] at hf; simp at hf
    | some p => exact ⟨p, rfl⟩
  have hps : pyStrip p3 = f := by
    unfold lineFname at hf
    rw [hp3] at hf
    simpa using hf
  have ht' : strptimeYmdHMS (pyStrip ((pySplit l "INFO").head?.getD "")) = some t := by
    simpa [lineEndTime] using ht
  simp [copiedBranch, hC', hp3, ht', hps, applyEnd]

theorem startBranch_ok_cases (st st' : Timekeeper) (l : String)
    (h : startBranch st l = .ok st') :
    st' = st ∨ ∃ f t, isStartLine l = true ∧ lineFname l = some f ∧
      lineStartTime l = some t ∧ st' = tkSet st f (applyStart (tkGet st f) f t) := by
  cases hS : isStartLine l with
  | false =>
    rw [startBranch_no st l hS] at h
    exact Or.inl (by injection h with h; exact h.symm)
  | true =>
    cases hf : lineFname l with
    | none =>
      rw [startBranch_indexError st l hS hf] at h
      cases h
    | some f =>
      cases ht : lineStartTime l with
      | none =>
        rw [startBranch_valueError st l f hS hf ht] at h
        cases h
      | some t =>
        rw [startBranch_fire st l f t hS hf ht] at h
        injection h with h
        exact Or.inr ⟨f, t, rfl, rfl, rfl, h.symm⟩

theorem copiedBranch_ok_cases (st st' : Timekeeper) (l : String)
    (h : copiedBranch st l = .ok st') :
    st' = st ∨ ∃ f t, isCopiedLine l = true ∧ lineFname l = some f ∧
      lineEndTime l = some t ∧ st' = tkSet st f (applyEnd (tkGet st f) f t) := by
  cases hC : isCopiedLine l with
  | false =>
    rw [copiedBranch_no st l hC] at h
    exact Or.inl (by injection h with h; exact h.symm)
  | true =>
    cases hf : lineFname l with
    | none =>
      rw [copiedBranch_indexError st l hC hf] at h
      cases h
    | some f =>
      cases ht : lineEndTime l with
      | none =>
        rw [copiedBranch_valueError st l f hC hf ht] at h
        cases h
      | some t =>
        rw [copiedBranch_fire st l f t hC hf ht] at h
        injection h with h
        exact Or.inr ⟨f, t, rfl, rfl, rfl, h.symm⟩

/-! ### Characterization of one loop iteration -/

theorem processLine_no_marker (st : Timekeeper) (l : String)
    (hS : isStartLine l = false) (hC : isCopiedLine l = false) :
    processLine st l = .ok st := by
  unfold processLine
  rw [startBranch_no st l hS]
  exact copiedBranch_no st l hC

theorem processLine_start_only (st : Timekeeper) (l f : String) (t : DateTime)
    (hS : isStartLine l = true) (hC : isCopiedLine l = false)
    (hf : lineFname l = some f) (ht : lineStartTime l = some t) :
    processLine st l = .ok (tkSet st f (applyStart (tkGet st f) f t)) := by
  unfold processLine
  rw [startBranch_fire st l f t hS hf ht]
  exact copiedBranch_no _ l hC

theorem processLine_copied_only (st : Timekeeper) (l f : String) (t : DateTime)
    (hS : isStartLine l = false) (hC : isCopiedLine l = true)
    (hf : lineFname l = some f) (ht : lineEndTime l = some t) :
    processLine st l = .ok (tkSet st f (applyEnd (tkGet st f) f t)) := by
  unfold processLine
  rw [startBranch_no st l hS]
  exact copiedBranch_fire st l f t hC hf ht

theorem processLine_both (st : Timekeeper) (l f : String) (ts te : DateTime)
    (hS : isStartLine l = true) (hC : isCopiedLine l = true)
    (hf : lineFname l = some f) (hts : lineStartTime l = some ts)
    (hte : lineEndTime l = some te) :
    processLine st l =
      .ok (tkSet (tkSet st f (applyStart (tkGet st f) f ts)) f
        (applyEnd (tkGet (tkSet st f (applyStart (tkGet st f) f ts)) f) f te)) := by
  unfold processLine
  rw [startBranch_fire st l f ts hS hf hts]
  exact copiedBranch_fire _ l f te hC hf hte

theorem processLine_start_valueError (st : Timekeeper) (l f : String)
    (hS : isStartLine l = true) (hf : lineFname l = some f)
    (ht : lineStartTime l = none) :
    processLine st l = .error .valueError := by
  unfold processLine
  rw [startBranch_valueError st l f hS hf ht]

theorem processLine_both_valueError (st : Timekeeper) (l f : String) (ts : DateTime)
    (hS : isStartLine l = true) (hC : isCopiedLine l = true)
    (hf : lineFname l = some f) (hts : lineStartTime l = some ts)
    (hte : lineEndTime l = none) :
    processLine st l = .error .valueError := by
  unfold processLine
  rw [startBranch_fire st l f ts hS hf hts]
  exact copiedBranch_valueError _ l f hC hf hte

theorem processLine_ok_of_lineOk (st : Timekeeper) (l : String)
    (h : lineOk l = true) : ∃ st', processLine st l = .ok st' := by
  unfold lineOk at h
  rw [Bool.and_eq_true] at h
  obtain ⟨h1, h2⟩ := h
  cases hS : isStartLine l with
  | false =>
    cases hC : isCopiedLine l with
    | false => exact ⟨st, processLine_no_marker st l hS hC⟩
    | true =>
      rw [hC] at h2
      simp only [Bool.not_true, Bool.false_or, Bool.and_eq_true,
        Option.isSome_iff_exists] at h2
      obtain ⟨⟨f, hf⟩, ⟨t, ht⟩⟩ := h2
      exact ⟨_, processLine_copied_only st l f t hS hC hf ht⟩
  | true =>
    rw [hS] at h1
    simp only [Bool.not_true, Bool.false_or, Bool.and_eq_true,
      Option.isSome_iff_exists] at h1
    obtain ⟨⟨f, hf⟩, ⟨ts, hts⟩⟩ := h1
    cases hC : isCopiedLine l with
    | false => exact ⟨_, processLine_start_only st l f ts hS hC hf hts⟩
    | true =>
      rw [hC] at h2
      simp only [Bool.not_true, Bool.false_or, Bool.and_eq_true,
        Option.isSome_iff_exists] at h2
      obtain ⟨_, ⟨te, hte⟩⟩ := h2
      exact ⟨_, processLine_both st l f ts te hS hC hf hts hte⟩

theorem noMarkerFor_fname_ne (f l g : String) (hn : noMarkerFor f l = true)
    (hm : isStartLine l = true ∨ isCopiedLine l = true)
    (hf : lineFname l = some g) : g ≠ f := by
  unfold noMarkerFor at hn
  have hms : (isStartLine l || isCopiedLine l) = true := by
    rcases hm with h | h <;> simp [h]
  rw [hms] at hn
  simp only [Bool.not_true, Bool.false_or] at hn
  rw [hf] at hn
  simpa using hn

theorem processLine_ok_other (st st' : Timekeeper) (l f : String)
    (h : processLine st l = .ok st') (hn : noMarkerFor f l = true) :
    tkGet st' f = tkGet st f := by
  unfold processLine at h
  cases hsb : startBranch st l with
  | error e => rw [hsb] at h; cases h
  | ok st1 =>
    rw [hsb] at h
    have h1 : tkGet st1 f = tkGet st f := by
      rcases startBranch_ok_cases st st1 l hsb with he | ⟨g, t, hS, hfg, ht, he⟩
      · rw [he]
      · have hgf := noMarkerFor_fname_ne f l g hn (Or.inl hS) hfg
        rw [he, tkGet_tkSet_ne st g f _ (Ne.symm hgf)]
    have h2 : tkGet st' f = tkGet st1 f := by
      rcases copiedBranch_ok_cases st1 st' l h with he | ⟨g, t, hC, hfg, ht, he⟩
      · rw [he]
      · have hgf := noMarkerFor_fname_ne f l g hn (Or.inr hC) hfg
        rw [he, tkGet_tkSet_ne st1 g f _ (Ne.symm hgf)]
    rw [h2, h1]

theorem processLine_ok_start_preserved (st st' : Timekeeper) (l f : String)
    (d : TransferDTO) (h : processLine st l = .ok st')
    (hn : noStartFor f l = true) (hd : tkGet st f = some d) :
    ∃ d', tkGet st' f = some d' ∧ d'.start_time = d.start_time := by
  unfold processLine at h
  cases hsb : startBranch st l with
  | error e => rw [hsb] at h; cases h
  | ok st1 =>
    rw [hsb] at h
    have h1 : tkGet st1 f = some d := by
      rcases startBranch_ok_cases st st1 l hsb with he | ⟨g, t, hS, hfg, ht, he⟩
      · rw [he]; exact hd
      · have hgf : g ≠ f := by
          unfold noStartFor at hn
          rw [hS] at hn
          simp only [Bool.not_true, Bool.false_or] at hn
          rw [hfg] at hn
          simpa using hn
        rw [he, tkGet_tkSet_ne st g f _ (Ne.symm hgf)]
        exact hd
    rcases copiedBranch_ok_cases st1 st' l h with he | ⟨g, t, hC, hfg, ht, he⟩
    · exact ⟨d, by rw [he]; exact h1, rfl⟩
    · by_cases hgf : g = f
      · subst hgf
        refine ⟨applyEnd (tkGet st1 g) g t, ?_, ?_⟩
        · rw [he, tkGet_tkSet_same]
        · rw [h1]
          simp [applyEnd]
      · exact ⟨d, by rw [he, tkGet_tkSet_ne st1 g f _ (Ne.symm hgf)]; exact h1, rfl⟩

theorem processLine_TKInv (st st' : Timekeeper) (l : String)
    (h : processLine st l = .ok st') (hinv : TKInv st) : TKInv st' := by
  unfold processLine at h
  cases hsb : startBranch st l with
  | error e => rw [hsb] at h; cases h
  | ok st1 =>
    rw [hsb] at h
    have hinv1 : TKInv st1 := by
      rcases startBranch_ok_cases st st1 l hsb with he | ⟨g, t, hS, hfg, ht, he⟩
      · rw [he]; exact hinv
      · subst he
        apply TKInv_tkSet st g _ hinv
        · cases hg : tkGet st g with
          | none => simp [applyStart, hg]
          | some d =>
            have hx : d.fname = g := (hinv.2 (g, d) (tkGet_mem st g d hg)).1
            simp [applyStart, hg, hx]
        · cases hg : tkGet st g with
          | none => simp [applyStart, hg]
          | some d =>
            have hx : d.transferer = "rclone" := (hinv.2 (g, d) (tkGet_mem st g d hg)).2.1
            simp [applyStart, hg, hx]
        · cases hg : tkGet st g with
          | none => simp [applyStart, hg]
          | some d => simp [applyStart, hg]
    rcases copiedBranch_ok_cases st1 st' l h with he | ⟨g, t, hC, hfg, ht, he⟩
    · rw [he]; exact hinv1
    · subst he
      apply TKInv_tkSet st1 g _ hinv1
      · cases hg : tkGet st1 g with
        | none => simp [applyEnd, hg]
        | some d =>
          have hx : d.fname = g := (hinv1.2 (g, d) (tkGet_mem st1 g d hg)).1
          simp [applyEnd, hg, hx]
      · cases hg : tkGet st1 g with
        | none => simp [applyEnd, hg]
        | some d =>
          have hx : d.transferer = "rclone" := (hinv1.2 (g, d) (tkGet_mem st1 g d hg)).2.1
          simp [applyEnd, hg, hx]
      · cases hg : tkGet st1 g with
        | none => simp [applyEnd, hg]
        | some d => simp [applyEnd, hg]

/-! ### The scan over a whole log -/

theorem processLines_append (st : Timekeeper) (L1 L2 : List String) :
    processLines st (L1 ++ L2) =
      match processLines st L1 with
      | .error e => .error e
      | .ok st1 => processLines st1 L2 := by
  induction L1 generalizing st with
  | nil => rfl
  | cons l ls ih =>
    simp only [List.cons_append, processLines]
    cases processLine st l with
    | error e => rfl
    | ok st1 => exact ih st1

theorem processLines_ok_of_lineOk (L : List String) (st : Timekeeper)
    (h : ∀ l ∈ L, lineOk l = true) : ∃ st', processLines st L = .ok st' := by
  induction L generalizing st with
  | nil => exact ⟨st, rfl⟩
  | cons l ls ih =>
    obtain ⟨st1, h1⟩ := processLine_ok_of_lineOk st l (h l (List.mem_cons_self l ls))
    obtain ⟨st', h2⟩ := ih st1 (fun x hx => h x (List.mem_cons_of_mem l hx))
    refine ⟨st', ?_⟩
    simp only [processLines]
    rw [h1]
    exact h2

theorem processLines_ok_other (L : List String) (st st' : Timekeeper) (f : String)
    (hn : ∀ l ∈ L, noMarkerFor f l = true)
    (h : processLines st L = .ok st') : tkGet st' f = tkGet st f := by
  induction L generalizing st with
  | nil =>
    simp only [processLines] at h
    injection h with h
    subst h
    rfl
  | cons l ls ih =>
    simp only [processLines] at h
    cases hp : processLine st l with
    | error e => rw [hp] at h; cases h
    | ok st1 =>
      rw [hp] at h
      have h1 := processLine_ok_other st st1 l f hp (hn l (List.mem_cons_self l ls))
      have h2 := ih st1 (fun x hx => hn x (List.mem_cons_of_mem l hx)) h
      rw [h2, h1]

theorem processLines_start_preserved (L : List String) (st st' : Timekeeper)
    (f : String) (d : TransferDTO)
    (hn : ∀ l ∈ L, noStartFor f l = true)
    (h : processLines st L = .ok st') (hd : tkGet st f = some d) :
    ∃ d', tkGet st' f = some d' ∧ d'.start_time = d.start_time := by
  induction L generalizing st d with
  | nil =>
    simp only [processLines] at h
    injection h with h
    subst h
    exact ⟨d, hd, rfl⟩
  | cons l ls ih =>
    simp only [processLines] at h
    cases hp : processLine st l with
    | error e => rw [hp] at h; cases h
    | ok st1 =>
      rw [hp] at h
      obtain ⟨d1, hd1, hs1⟩ := processLine_ok_start_preserved st st1 l f d hp
        (hn l (List.mem_cons_self l ls)) hd
      obtain ⟨d', hd', hs'⟩ :=
        ih st1 d1 (fun x hx => hn x (List.mem_cons_of_mem l hx)) h hd1
      exact ⟨d', hd', by rw [hs', hs1]⟩

theorem processLines_TKInv (L : List String) (st st' : Timekeeper)
    (h : processLines st L = .ok st') (hinv : TKInv st) : TKInv st' := by
  induction L generalizing st with
  | nil =>
    simp only [processLines] at h
    injection h with h
    subst h
    exact hinv
  | cons l ls ih =>
    simp only [processLines] at h
    cases hp : processLine st l with
    | error e => rw [hp] at h; cases h
    | ok st1 =>
      rw [hp] at h
      exact ih st1 h (processLine_TKInv st st1 l hp hinv)

/-! ### Relating the returned values to the map entries -/

theorem filter_values_of_none (st : Timekeeper) (f : String)
    (hkey : ∀ kv ∈ st, kv.2.fname = kv.1)
    (h : tkGet st f = none) :
    (st.map (fun kv => kv.2)).filter (fun r => r.fname == f) = [] := by
  induction st with
  | nil => rfl
  | cons kw rest ih =>
    obtain ⟨k, w⟩ := kw
    unfold tkGet at h
    by_cases hk : k = f
    · rw [if_pos hk] at h
      cases h
    · rw [if_neg hk] at h
      have hw : w.fname = k := hkey (k, w) (List.mem_cons_self _ _)
      simp only [List.map_cons, List.filter_cons]
      rw [show (w.fname == f) = false by simp [hw, hk]]
      exact ih (fun kv hkv => hkey kv (List.mem_cons_of_mem _ hkv)) h

theorem filter_values_of_some (st : Timekeeper) (f : String) (d : TransferDTO)
    (hkey : ∀ kv ∈ st, kv.2.fname = kv.1)
    (hnd : (st.map Prod.fst).Nodup)
    (h : tkGet st f = some d) :
    (st.map (fun kv => kv.2)).filter (fun r => r.fname == f) = [d] := by
  induction st with
  | nil => cases h
  | cons kw rest ih =>
    obtain ⟨k, w⟩ := kw
    have hw : w.fname = k := hkey (k, w) (List.mem_cons_self _ _)
    have hkeyr : ∀ kv ∈ rest, kv.2.fname = kv.1 :=
      fun kv hkv => hkey kv (List.mem_cons_of_mem _ hkv)
    simp only [List.map_cons, List.nodup_cons] at hnd
    unfold tkGet at h
    by_cases hk : k = f
    · rw [if_pos hk] at h
      injection h with h
      subst h
      simp only [List.map_cons, List.filter_cons]
      rw [show (w.fname == f) = true by simp [hw, hk]]
      have hnone : tkGet rest f = none := by
        apply (tkGet_eq_none_iff rest f).mpr
        rw [← hk]
        exact hnd.1
      rw [filter_values_of_none rest f hkeyr hnone]
      rfl
    · rw [if_neg hk] at h
      simp only [List.map_cons, List.filter_cons]
      rw [show (w.fname == f) = false by simp [hw, hk]]
      exact ih hkeyr hnd.2 h

/-! ### Composition helpers -/

theorem processLines_cons_ok (st st1 : Timekeeper) (l : String) (L : List String)
    (h : processLine st l = .ok st1) :
    processLines st (l :: L) = processLines st1 L := by
  simp only [processLines]
  rw [h]

theorem processLines_cons_error (st : Timekeeper) (e : PErr) (l : String)
    (L : List String) (h : processLine st l = .error e) :
    processLines st (l :: L) = .error e := by
  simp only [processLines]
  rw [h]

theorem processLines_append_ok (st st1 : Timekeeper) (L1 L2 : List String)
    (h : processLines st L1 = .ok st1) :
    processLines st (L1 ++ L2) = processLines st1 L2 := by
  rw [processLines_append, h]

theorem parse_log_of_processLines (lines : List String) (st : Timekeeper)
    (h : processLines [] lines = .ok st) :
    parse_log lines = .ok (st.map (fun kv => kv.2)) := by
  unfold parse_log
  rw [h]

theorem parse_log_error_of_processLines (lines : List String) (e : PErr)
    (h : processLines [] lines = .error e) :
    parse_log lines = .error e := by
  unfold parse_log
  rw [h]

theorem applyStart_start_time (o : Option TransferDTO) (f : String)
    (t : DateTime) : (applyStart o f t).start_time = some t := by
  cases o <;> rfl

/-- A log consisting of lines that never touch identity `f`, except for a
single line `x`, creates for `f` exactly the record `x` makes from a
missing entry. -/
theorem parse_one_touch (A B : List String) (x f : String) (v1 : TransferDTO)
    (hA : ∀ l ∈ A, lineOk l = true ∧ noMarkerFor f l = true)
    (hB : ∀ l ∈ B, lineOk l = true ∧ noMarkerFor f l = true)
    (hx : ∀ st : Timekeeper, tkGet st f = none →
      processLine st x = .ok (tkSet st f v1)) :
    ∃ recs, parse_log (A ++ x :: B) = .ok recs ∧
      recs.filter (fun r => r.fname == f) = [v1] := by
  obtain ⟨stA, hstA⟩ := processLines_ok_of_lineOk A [] (fun l hl => (hA l hl).1)
  have hAf : tkGet stA f = none :=
    processLines_ok_other A [] stA f (fun l hl => (hA l hl).2) hstA
  have hx1 : processLine stA x = .ok (tkSet stA f v1) := hx stA hAf
  obtain ⟨stB, hstB⟩ :=
    processLines_ok_of_lineOk B (tkSet stA f v1) (fun l hl => (hB l hl).1)
  have hBf : tkGet stB f = some v1 := by
    rw [processLines_ok_other B _ stB f (fun l hl => (hB l hl).2) hstB]
    exact tkGet_tkSet_same stA f v1
  have hall : processLines [] (A ++ x :: B) = .ok stB := by
    rw [processLines_append_ok [] stA A (x :: B) hstA,
        processLines_cons_ok stA (tkSet stA f v1) x B hx1]
    exact hstB
  have hinv := processLines_TKInv (A ++ x :: B) [] stB hall TKInv_nil
  refine ⟨stB.map (fun kv => kv.2), parse_log_of_processLines _ stB hall, ?_⟩
  exact filter_values_of_some stB f v1 (fun kv hkv => (hinv.2 kv hkv).1) hinv.1 hBf

/-- A log in which two lines `x` then `y` touch identity `f` (and nothing
else does) leaves for `f` exactly the record obtained by applying `x`'s
effect to a missing entry and then `y`'s effect to the result. -/
theorem parse_two_touch (A B C : List String) (x y f : String)
    (v1 v2 : TransferDTO)
    (hA : ∀ l ∈ A, lineOk l = true ∧ noMarkerFor f l = true)
    (hB : ∀ l ∈ B, lineOk l = true ∧ noMarkerFor f l = true)
    (hC : ∀ l ∈ C, lineOk l = true ∧ noMarkerFor f l = true)
    (hx : ∀ st : Timekeeper, tkGet st f = none →
      processLine st x = .ok (tkSet st f v1))
    (hy : ∀ st : Timekeeper, tkGet st f = some v1 →
      processLine st y = .ok (tkSet st f v2)) :
    ∃ recs, parse_log (A ++ x :: B ++ y :: C) = .ok recs ∧
      recs.filter (fun r => r.fname == f) = [v2] := by
  obtain ⟨stA, hstA⟩ := processLines_ok_of_lineOk A [] (fun l hl => (hA l hl).1)
  have hAf : tkGet stA f = none :=
    processLines_ok_other A [] stA f (fun l hl => (hA l hl).2) hstA
  have hx1 : processLine stA x = .ok (tkSet stA f v1) := hx stA hAf
  obtain ⟨stB, hstB⟩ :=
    processLines_ok_of_lineOk B (tkSet stA f v1) (fun l hl => (hB l hl).1)
  have hBf : tkGet stB f = some v1 := by
    rw [processLines_ok_other B _ stB f (fun l hl => (hB l hl).2) hstB]
    exact tkGet_tkSet_same stA f v1
  have hy1 : processLine stB y = .ok (tkSet stB f v2) := hy stB hBf
  obtain ⟨stC, hstC⟩ :=
    processLines_ok_of_lineOk C (tkSet stB f v2) (fun l hl => (hC l hl).1)
  have hCf : tkGet stC f = some v2 := by
    rw [processLines_ok_other C _ stC f (fun l hl => (hC l hl).2) hstC]
    exact tkGet_tkSet_same stB f v2
  have hAxB : processLines [] (A ++ x :: B) = .ok stB := by
    rw [processLines_append_ok [] stA A (x :: B) hstA,
        processLines_cons_ok stA (tkSet stA f v1) x B hx1]
    exact hstB
  have hall : processLines [] (A ++ x :: B ++ y :: C) = .ok stC := by
    rw [processLines_append_ok [] stB (A ++ x :: B) (y :: C) hAxB,
        processLines_cons_ok stB (tkSet stB f v2) y C hy1]
    exact hstC
  have hinv := processLines_TKInv (A ++ x :: B ++ y :: C) [] stC hall TKInv_nil
  refine ⟨stC.map (fun kv => kv.2), parse_log_of_processLines _ stC hall, ?_⟩
  exact filter_values_of_some stC f v2 (fun kv hkv => (hinv.2 kv hkv).1) hinv.1 hCf

theorem processLines_no_markers (L : List String) (st : Timekeeper)
    (h : ∀ l ∈ L, isStartLine l = false ∧ isCopiedLine l = false) :
    processLines st L = .ok st := by
  induction L with
  | nil => rfl
  | cons l ls ih =>
    have h0 := h l (List.mem_cons_self l ls)
    rw [processLines_cons_ok st st l ls (processLine_no_marker st l h0.1 h0.2)]
    exact ih (fun x hx => h x (List.mem_cons_of_mem l hx))

/-! ### Lemmas about the configuration reads of `run_automation` -/

theorem getKeys_error_keyError (cfg : String → Option String) (ks : List String)
    (e : RunErr) (h : getKeys cfg ks = .error e) : ∃ k, e = .keyError k := by
  induction ks with
  | nil => cases h
  | cons k ks ih =>
    unfold getKeys at h
    cases hk : cfg k with
    | none =>
      rw [hk] at h
      injection h with h
      exact ⟨k, h.symm⟩
    | some v =>
      rw [hk] at h
      cases hr : getKeys cfg ks with
      | error e2 =>
        rw [hr] at h
        injection h with h
        rw [h] at hr
        exact ih hr
      | ok vs =>
        rw [hr] at h
        cases h

theorem getKeys_isError_of_missing (cfg : String → Option String)
    (ks : List String) (k : String) (hk : k ∈ ks) (hnone : cfg k = none) :
    ∃ e, getKeys cfg ks = .error e := by
  induction ks with
  | nil => cases hk
  | cons k0 ks ih =>
    unfold getKeys
    cases hk0 : cfg k0 with
    | none => exact ⟨.keyError k0, rfl⟩
    | some v =>
      rcases List.mem_cons.mp hk with he | hm
      · subst he
        rw [hk0] at hnone
        cases hnone
      · obtain ⟨e, hee⟩ := ih hm
        rw [hee]
        exact ⟨e, rfl⟩

theorem processLine_copied_valueError (st : Timekeeper) (l f : String)
    (hS : isStartLine l = false) (hC : isCopiedLine l = true)
    (hf : lineFname l = some f) (ht : lineEndTime l = none) :
    processLine st l = .error .valueError := by
  unfold processLine
  rw [startBranch_no st l hS]
  exact copiedBranch_valueError st l f hC hf ht

/-- On a line that matches some marker but whose fired branch cannot parse
its timestamp (`lineOk` is false although the identity extraction
succeeds), the loop body raises `ValueError` — covering start-marker lines,
completion-marker lines, and lines carrying both markers. -/
theorem processLine_badTime_valueError (st : Timekeeper) (l f : String)
    (hf : lineFname l = some f) (hbad : lineOk l = false) :
    processLine st l = .error .valueError := by
  cases hS : isStartLine l with
  | true =>
    cases hts : lineStartTime l with
    | none => exact processLine_start_valueError st l f hS hf hts
    | some ts =>
      cases hC : isCopiedLine l with
      | false => simp [lineOk, hS, hts, hC, hf] at hbad
      | true =>
        cases hte : lineEndTime l with
        | none => exact processLine_both_valueError st l f ts hS hC hf hts hte
        | some te => simp [lineOk, hS, hts, hC, hte, hf] at hbad
  | false =>
    cases hC : isCopiedLine l with
    | false => simp [lineOk, hS, hC] at hbad
    | true =>
      cases hte : lineEndTime l with
      | none => exact processLine_copied_valueError st l f hS hC hf hte
      | some te => simp [lineOk, hS, hC, hte, hf] at hbad

theorem mem_processLine_provenance (st st' : Timekeeper) (l : String)
    (h : processLine st l = .ok st') (kv : String × TransferDTO)
    (hkv : kv ∈ st') : kv ∈ st ∨ lineFname l = some kv.1 := by
  unfold processLine at h
  cases hsb : startBranch st l with
  | error e => rw [hsb] at h; cases h
  | ok st1 =>
    rw [hsb] at h
    have step1 : ∀ kw : String × TransferDTO, kw ∈ st1 →
        kw ∈ st ∨ lineFname l = some kw.1 := by
      intro kw hkw
      rcases startBranch_ok_cases st st1 l hsb with he | ⟨g, t, hS, hfg, ht, he⟩
      · rw [he] at hkw
        exact Or.inl hkw
      · subst he
        rcases mem_tkSet st g _ kw hkw with hh | hh
        · subst hh
          exact Or.inr hfg
        · exact Or.inl hh
    rcases copiedBranch_ok_cases st1 st' l h with he | ⟨g, t, hC, hfg, ht, he⟩
    · rw [he] at hkv
      exact step1 kv hkv
    · subst he
      rcases mem_tkSet st1 g _ kv hkv with hh | hh
      · subst hh
        exact Or.inr hfg
      · exact step1 kv hh

theorem mem_processLines_provenance (L : List String) (st st' : Timekeeper)
    (h : processLines st L = .ok st') (kv : String × TransferDTO)
    (hkv : kv ∈ st') : kv ∈ st ∨ ∃ l ∈ L, lineFname l = some kv.1 := by
  induction L generalizing st with
  | nil =>
    simp only [processLines] at h
    injection h with h
    subst h
    exact Or.inl hkv
  | cons l ls ih =>
    simp only [processLines] at h
    cases hp : processLine st l with
    | error e => rw [hp] at h; cases h
    | ok st1 =>
      rw [hp] at h
      rcases ih st1 h with hin | ⟨lx, hlx, hfx⟩
      · rcases mem_processLine_provenance st st1 l hp kv hin with hin2 | hfl
        · exact Or.inl hin2
        · exact Or.inr ⟨l, List.mem_cons_self l ls, hfl⟩
      · exact Or.inr ⟨lx, List.mem_cons_of_mem l hlx, hfx⟩

/-! ### Claims -/

/-- C1 (counterexample): parsing the spec's two example lines yields exactly
one record with both timestamps as stated, but its file identity is `"msg"`
(the fourth colon-separated field — the timestamp itself contains two
colons), not `"foo"` as the claim states. -/
theorem C1_counterexample :
    parse_log [exampleStartLine, exampleCopiedLine] =
      .ok [{ fname := "msg", transferer := "rclone",
             start_time := some ⟨2024, 1, 1, 10, 0, 0⟩,
             end_time := some ⟨2024, 1, 1, 10, 5, 0⟩ }] ∧
    "msg" ≠ "foo" :=
  ⟨by decide, by decide⟩

/-- C1 (amended): parsing the two example lines yields exactly one Transfer
Record whose file identity is `"msg"` — the field at index 3 of
`line.split(":")` — with start_time 2024/01/01 10:00:00 and end_time
2024/01/01 10:05:00. -/
theorem C1_amended :
    parse_log [exampleStartLine, exampleCopiedLine] =
      .ok [{ fname := "msg", transferer := "rclone",
             start_time := some ⟨2024, 1, 1, 10, 0, 0⟩,
             end_time := some ⟨2024, 1, 1, 10, 5, 0⟩ }] := by
  decide

/-- C2 (counterexample): a start-marker line whose timestamp cannot be
parsed is not skipped — the `ValueError` from `strptime` aborts the whole
scan, so `parse_log` raises instead of returning the record for the later
well-formed line. -/
theorem C2_counterexample :
    parse_log [badTimestampLine, rcCopiedLine] = .error .valueError ∧
    parse_log [rcCopiedLine] =
      .ok [{ fname := "data1.bin", transferer := "rclone",
             start_time := none,
             end_time := some ⟨2024, 1, 1, 10, 5, 0⟩ }] :=
  ⟨by decide, by decide⟩

/-- C2 (amended): any marker-matching line — start marker, completion
marker, or both — whose fired branch cannot parse its timestamp token (the
text before `"DEBUG"` for start markers, before `"INFO"` for completion
markers) in `%Y/%m/%d %H:%M:%S` raises a `ValueError` that aborts the
whole parse: the line is not skipped and the scan does not continue; only
lines matching no marker are ignored. -/
theorem C2_amended (A rest : List String) (bad f : String)
    (hA : ∀ l ∈ A, lineOk l = true)
    (hf : lineFname bad = some f) (hbad : lineOk bad = false) :
    parse_log (A ++ bad :: rest) = .error .valueError := by
  obtain ⟨stA, hstA⟩ := processLines_ok_of_lineOk A [] hA
  apply parse_log_error_of_processLines
  rw [processLines_append_ok [] stA A (bad :: rest) hstA]
  exact processLines_cons_error stA .valueError bad rest
    (processLine_badTime_valueError stA bad f hf hbad)

/-- C2 (witness): the amended claim at concrete logs — a start-marker line
and a completion-marker line, each with an unparseable timestamp. -/
theorem C2_amended_witness :
    parse_log ([junkLine] ++ badTimestampLine :: [rcCopiedLine]) =
      .error .valueError ∧
    parse_log ([] ++ badCopiedLine :: [rcStartLine]) = .error .valueError :=
  ⟨C2_amended [junkLine] [rcCopiedLine] badTimestampLine "data1.bin"
     (by decide) (by decide) (by decide),
   C2_amended [] [rcStartLine] badCopiedLine "data1.bin"
     (by decide) (by decide) (by decide)⟩

/-- C8: a log none of whose lines matches a start or completion marker
(including the empty log) parses to the empty collection without error. -/
theorem C8_no_marker_empty (L : List String)
    (h : ∀ l ∈ L, isStartLine l = false ∧ isCopiedLine l = false) :
    parse_log L = .ok [] := by
  unfold parse_log
  rw [processLines_no_markers L [] h]
  rfl

/-- C8 (witness): concrete marker-free and empty logs. -/
theorem C8_witness :
    parse_log [junkLine, ""] = .ok [] ∧ parse_log [] = .ok [] :=
  ⟨C8_no_marker_empty [junkLine, ""] (by decide),
   C8_no_marker_empty [] (by decide)⟩

/-- C9: every record returned by a successful parse carries
`transferer = "rclone"`, has at least one timestamp set, and has its
`fname` equal to the file identity extracted (via `line.split(":")[3]`)
from some log line of the input — in particular from the line that created
it — and the returned file identities are pairwise distinct. -/
theorem C9_invariants (L : List String) (recs : List TransferDTO)
    (h : parse_log L = .ok recs) :
    (∀ r ∈ recs, r.transferer = "rclone" ∧
      (r.start_time.isSome || r.end_time.isSome) = true ∧
      ∃ l ∈ L, lineFname l = some r.fname) ∧
    (recs.map (fun r => r.fname)).Nodup := by
  unfold parse_log at h
  cases hp : processLines [] L with
  | error e => rw [hp] at h; cases h
  | ok st =>
    rw [hp] at h
    injection h with h
    subst h
    obtain ⟨hnd, hall⟩ := processLines_TKInv L [] st hp TKInv_nil
    constructor
    · intro r hr
      obtain ⟨kv, hkv, hkv2⟩ := List.mem_map.mp hr
      subst hkv2
      refine ⟨(hall kv hkv).2.1, (hall kv hkv).2.2, ?_⟩
      rcases mem_processLines_provenance L [] st hp kv hkv with hin | ⟨l, hl, hf⟩
      · exact absurd hin (List.not_mem_nil kv)
      · refine ⟨l, hl, ?_⟩
        rw [(hall kv hkv).1]
        exact hf
    · have hmaps : (st.map (fun kv => kv.2)).map (fun r => r.fname) =
          st.map Prod.fst := by
        rw [List.map_map]
        exact List.map_congr_left (fun kv hkv => (hall kv hkv).1)
      rw [hmaps]
      exact hnd

/-- C9 (witness): the invariants at a concrete two-line log. -/
theorem C9_witness :
    (∀ r ∈ ([{ fname := "data1.bin", transferer := "rclone",
               start_time := some ⟨2024, 1, 1, 10, 0, 0⟩,
               end_time := some ⟨2024, 1, 1, 10, 5, 0⟩ }] : List TransferDTO),
      r.transferer = "rclone" ∧
        (r.start_time.isSome || r.end_time.isSome) = true ∧
        ∃ l ∈ [rcStartLine, rcCopiedLine], lineFname l = some r.fname) ∧
    (([{ fname := "data1.bin", transferer := "rclone",
         start_time := some ⟨2024, 1, 1, 10, 0, 0⟩,
         end_time := some ⟨2024, 1, 1, 10, 5, 0⟩ }] : List TransferDTO).map
      (fun r => r.fname)).Nodup :=
  C9_invariants [rcStartLine, rcCopiedLine] _ (by decide)

/-- C10 (counterexample): on a single line containing both a start marker
and `"Copied"`, `parse_log` does not return a record with both timestamps
set — the completion branch's timestamp extraction (the text before
`"INFO"`) fails and the whole parse raises a `ValueError`. -/
theorem C10_counterexample :
    parse_log [bothMarkersLine] = .error .valueError := by
  decide

/-- C10 (amended): the start-marker and completion-marker checks are two
independent tests, not mutually exclusive branches — on a line carrying
both markers the start branch fires and updates the record, and the
completion branch also runs; but when the line has no `"INFO"` token with a
parseable timestamp before it, that second branch raises a `ValueError`, so
no record with both timestamps is produced from one such line. -/
theorem C10_amended (st : Timekeeper) (l f : String) (ts : DateTime)
    (hS : isStartLine l = true) (hC : isCopiedLine l = true)
    (hf : lineFname l = some f) (hts : lineStartTime l = some ts)
    (hte : lineEndTime l = none) :
    startBranch st l = .ok (tkSet st f (applyStart (tkGet st f) f ts)) ∧
    processLine st l = .error .valueError :=
  ⟨startBranch_fire st l f ts hS hf hts,
   processLine_both_valueError st l f ts hS hC hf hts hte⟩

/-- C10 (witness): the amended claim at the concrete both-marker line. -/
theorem C10_amended_witness :
    startBranch [] bothMarkersLine =
      .ok (tkSet [] "x" (applyStart (tkGet [] "x") "x" ⟨2024, 1, 1, 10, 0, 0⟩)) ∧
    processLine [] bothMarkersLine = .error .valueError :=
  C10_amended [] bothMarkersLine "x" ⟨2024, 1, 1, 10, 0, 0⟩
    (by decide) (by decide) (by decide) (by decide) (by decide)

/-- C4: a log holding one well-formed start-marker line and one well-formed
completion-marker line for the same identity `f`, in either relative order,
among lines that parse without error and carry no marker for `f`, yields
exactly one record for `f` with `start_time` from the start line and
`end_time` from the completion line. -/
theorem C4_order_independent (A B C : List String) (s c f : String)
    (ts tc : DateTime)
    (hA : ∀ l ∈ A, lineOk l = true ∧ noMarkerFor f l = true)
    (hB : ∀ l ∈ B, lineOk l = true ∧ noMarkerFor f l = true)
    (hC : ∀ l ∈ C, lineOk l = true ∧ noMarkerFor f l = true)
    (hs : isStartLine s = true ∧ isCopiedLine s = false ∧
      lineFname s = some f ∧ lineStartTime s = some ts)
    (hc : isStartLine c = false ∧ isCopiedLine c = true ∧
      lineFname c = some f ∧ lineEndTime c = some tc) :
    (∃ recs, parse_log (A ++ s :: B ++ c :: C) = .ok recs ∧
      recs.filter (fun r => r.fname == f) =
        [{ fname := f, transferer := "rclone",
           start_time := some ts, end_time := some tc }]) ∧
    (∃ recs, parse_log (A ++ c :: B ++ s :: C) = .ok recs ∧
      recs.filter (fun r => r.fname == f) =
        [{ fname := f, transferer := "rclone",
           start_time := some ts, end_time := some tc }]) := by
  obtain ⟨hs1, hs2, hs3, hs4⟩ := hs
  obtain ⟨hc1, hc2, hc3, hc4⟩ := hc
  constructor
  · refine parse_two_touch A B C s c f
      { fname := f, transferer := "rclone",
        start_time := some ts, end_time := none }
      { fname := f, transferer := "rclone",
        start_time := some ts, end_time := some tc }
      hA hB hC ?_ ?_
    · intro st hst
      rw [processLine_start_only st s f ts hs1 hs2 hs3 hs4, hst]
      rfl
    · intro st hst
      rw [processLine_copied_only st c f tc hc1 hc2 hc3 hc4, hst]
      rfl
  · refine parse_two_touch A B C c s f
      { fname := f, transferer := "rclone",
        start_time := none, end_time := some tc }
      { fname := f, transferer := "rclone",
        start_time := some ts, end_time := some tc }
      hA hB hC ?_ ?_
    · intro st hst
      rw [processLine_copied_only st c f tc hc1 hc2 hc3 hc4, hst]
      rfl
    · intro st hst
      rw [processLine_start_only st s f ts hs1 hs2 hs3 hs4, hst]
      rfl

/-- C4 (witness): both orders at a concrete log. -/
theorem C4_witness :
    (∃ recs, parse_log ([otherStartLine] ++ rcStartLine :: [junkLine] ++
        rcCopiedLine :: []) = .ok recs ∧
      recs.filter (fun r => r.fname == "data1.bin") =
        [{ fname := "data1.bin", transferer := "rclone",
           start_time := some ⟨2024, 1, 1, 10, 0, 0⟩,
           end_time := some ⟨2024, 1, 1, 10, 5, 0⟩ }]) ∧
    (∃ recs, parse_log ([otherStartLine] ++ rcCopiedLine :: [junkLine] ++
        rcStartLine :: []) = .ok recs ∧
      recs.filter (fun r => r.fname == "data1.bin") =
        [{ fname := "data1.bin", transferer := "rclone",
           start_time := some ⟨2024, 1, 1, 10, 0, 0⟩,
           end_time := some ⟨2024, 1, 1, 10, 5, 0⟩ }]) :=
  C4_order_independent [otherStartLine] [junkLine] [] rcStartLine rcCopiedLine
    "data1.bin" ⟨2024, 1, 1, 10, 0, 0⟩ ⟨2024, 1, 1, 10, 5, 0⟩
    (by decide) (by decide) (by decide) (by decide) (by decide)

/-- C6: a log whose only marker line for identity `f` is one well-formed
start-marker line yields a record for `f` with `start_time` set and
`end_time` unset, and that incomplete record is in the returned
collection. -/
theorem C6_start_only_record (A B : List String) (s f : String) (ts : DateTime)
    (hA : ∀ l ∈ A, lineOk l = true ∧ noMarkerFor f l = true)
    (hB : ∀ l ∈ B, lineOk l = true ∧ noMarkerFor f l = true)
    (hs : isStartLine s = true ∧ isCopiedLine s = false ∧
      lineFname s = some f ∧ lineStartTime s = some ts) :
    ∃ recs, parse_log (A ++ s :: B) = .ok recs ∧
      recs.filter (fun r => r.fname == f) =
        [{ fname := f, transferer := "rclone",
           start_time := some ts, end_time := none }] := by
  obtain ⟨hs1, hs2, hs3, hs4⟩ := hs
  refine parse_one_touch A B s f _ hA hB ?_
  intro st hst
  rw [processLine_start_only st s f ts hs1 hs2 hs3 hs4, hst]
  rfl

/-- C6 (witness): a concrete start-only log. -/
theorem C6_witness :
    ∃ recs, parse_log ([] ++ rcStartLine2 :: [junkLine]) = .ok recs ∧
      recs.filter (fun r => r.fname == "data1.bin") =
        [{ fname := "data1.bin", transferer := "rclone",
           start_time := some ⟨2024, 1, 1, 10, 2, 30⟩, end_time := none }] :=
  C6_start_only_record [] [junkLine] rcStartLine2 "data1.bin"
    ⟨2024, 1, 1, 10, 2, 30⟩ (by decide) (by decide) (by decide)

/-- C7: when a log contains two (or more) well-formed start-marker lines
for the same identity `f` and no start marker for `f` after the last one,
the single returned record for `f` has `start_time` equal to the timestamp
of that last start-marker line (last write wins). -/
theorem C7_last_start_wins (A B C : List String) (s1 s2 f : String)
    (t1 t2 : DateTime)
    (hA : ∀ l ∈ A, lineOk l = true) (hB : ∀ l ∈ B, lineOk l = true)
    (hC : ∀ l ∈ C, lineOk l = true ∧ noStartFor f l = true)
    (hs1 : isStartLine s1 = true ∧ isCopiedLine s1 = false ∧
      lineFname s1 = some f ∧ lineStartTime s1 = some t1)
    (hs2 : isStartLine s2 = true ∧ isCopiedLine s2 = false ∧
      lineFname s2 = some f ∧ lineStartTime s2 = some t2) :
    ∃ recs d, parse_log (A ++ s1 :: B ++ s2 :: C) = .ok recs ∧
      recs.filter (fun r => r.fname == f) = [d] ∧
      d.start_time = some t2 := by
  obtain ⟨ha1, ha2, ha3, ha4⟩ := hs1
  obtain ⟨hb1, hb2, hb3, hb4⟩ := hs2
  obtain ⟨stA, hstA⟩ := processLines_ok_of_lineOk A [] hA
  have h1 : processLine stA s1 =
      .ok (tkSet stA f (applyStart (tkGet stA f) f t1)) :=
    processLine_start_only stA s1 f t1 ha1 ha2 ha3 ha4
  obtain ⟨stB, hstB⟩ :=
    processLines_ok_of_lineOk B (tkSet stA f (applyStart (tkGet stA f) f t1)) hB
  have h2 : processLine stB s2 =
      .ok (tkSet stB f (applyStart (tkGet stB f) f t2)) :=
    processLine_start_only stB s2 f t2 hb1 hb2 hb3 hb4
  have hafter : tkGet (tkSet stB f (applyStart (tkGet stB f) f t2)) f =
      some (applyStart (tkGet stB f) f t2) := tkGet_tkSet_same stB f _
  obtain ⟨stC, hstC⟩ := processLines_ok_of_lineOk C
    (tkSet stB f (applyStart (tkGet stB f) f t2)) (fun l hl => (hC l hl).1)
  obtain ⟨d, hd, hds⟩ := processLines_start_preserved C
    (tkSet stB f (applyStart (tkGet stB f) f t2)) stC f
    (applyStart (tkGet stB f) f t2) (fun l hl => (hC l hl).2) hstC hafter
  have hAs1B : processLines [] (A ++ s1 :: B) = .ok stB := by
    rw [processLines_append_ok [] stA A (s1 :: B) hstA,
        processLines_cons_ok stA (tkSet stA f (applyStart (tkGet stA f) f t1))
          s1 B h1]
    exact hstB
  have hall : processLines [] (A ++ s1 :: B ++ s2 :: C) = .ok stC := by
    rw [processLines_append_ok [] stB (A ++ s1 :: B) (s2 :: C) hAs1B,
        processLines_cons_ok stB (tkSet stB f (applyStart (tkGet stB f) f t2))
          s2 C h2]
    exact hstC
  have hinv := processLines_TKInv (A ++ s1 :: B ++ s2 :: C) [] stC hall TKInv_nil
  refine ⟨stC.map (fun kv => kv.2), d,
    parse_log_of_processLines _ stC hall, ?_, ?_⟩
  · exact filter_values_of_some stC f d (fun kv hkv => (hinv.2 kv hkv).1) hinv.1 hd
  · rw [hds, applyStart_start_time]

/-- C7 (witness): duplicate start markers at a concrete log; the record
keeps the second start timestamp. -/
theorem C7_witness :
    ∃ recs d, parse_log ([] ++ rcStartLine :: [junkLine] ++
        rcStartLine2 :: [rcCopiedLine]) = .ok recs ∧
      recs.filter (fun r => r.fname == "data1.bin") = [d] ∧
      d.start_time = some ⟨2024, 1, 1, 10, 2, 30⟩ :=
  C7_last_start_wins [] [junkLine] [rcCopiedLine] rcStartLine rcStartLine2
    "data1.bin" ⟨2024, 1, 1, 10, 0, 0⟩ ⟨2024, 1, 1, 10, 2, 30⟩
    (by decide) (by decide) (by decide) (by decide) (by decide)

/-- C3 (counterexample): when the shell-executor call raises (as it does on
a failing rclone process), `run_automation` propagates the exception before
reaching `rclone_config_file.close()`, and the temporary credential/config
file still exists after the run. -/
theorem C3_counterexample :
    (run_automation fullConfig false []).1 = .error .processFailure ∧
    (run_automation fullConfig false []).2.cfgFileExists = true :=
  ⟨by decide, by decide⟩

/-- C3 (amended): the temporary credential/config file is removed on every
run in which the shell-executor call returns normally (whatever the parse
outcome, and also when it is never created because a config key is
missing); only a run that raises before `close()` leaves it on disk. -/
theorem C3_amended (cfg : String → Option String) (lines : List String) :
    (run_automation cfg true lines).2.cfgFileExists = false := by
  unfold run_automation
  cases getKeys cfg runAutomationKeys with
  | error e => rfl
  | ok vs =>
    cases getKeys cfg generateCfgKeys with
    | error e => rfl
    | ok vs2 =>
      cases parse_log lines with
      | error e => rfl
      | ok recs => rfl

/-- C5: a configuration missing any backend-required key makes
`run_automation` fail with a `KeyError` naming a missing key, raised by the
config reads that all precede the shell-executor call — the external
process is never spawned. -/
theorem C5_missing_key_fails_fast (cfg : String → Option String)
    (shellOk : Bool) (lines : List String) (k : String)
    (hk : k ∈ requiredKeys) (hnone : cfg k = none) :
    (∃ k', (run_automation cfg shellOk lines).1 = .error (.keyError k')) ∧
    (run_automation cfg shellOk lines).2.spawned = false := by
  have hk2 : k ∈ runAutomationKeys ∨ k ∈ generateCfgKeys := by
    have hm : k ∈ runAutomationKeys ++ generateCfgKeys := hk
    exact List.mem_append.mp hm
  unfold run_automation
  rcases hk2 with h1 | h2
  · obtain ⟨e, he⟩ := getKeys_isError_of_missing cfg runAutomationKeys k h1 hnone
    obtain ⟨k', hke⟩ := getKeys_error_keyError cfg runAutomationKeys e he
    rw [he, hke]
    exact ⟨⟨k', rfl⟩, rfl⟩
  · cases hg : getKeys cfg runAutomationKeys with
    | error e =>
      obtain ⟨k', hke⟩ := getKeys_error_keyError cfg runAutomationKeys e hg
      rw [hke]
      exact ⟨⟨k', rfl⟩, rfl⟩
    | ok vs =>
      obtain ⟨e, he⟩ := getKeys_isError_of_missing cfg generateCfgKeys k h2 hnone
      obtain ⟨k', hke⟩ := getKeys_error_keyError cfg generateCfgKeys e he
      rw [he, hke]
      exact ⟨⟨k', rfl⟩, rfl⟩

/-- C5 (witness): a concrete configuration missing `dest_secret`. -/
theorem C5_witness :
    (∃ k', (run_automation configMissingDestSecret false []).1 =
      .error (.keyError k')) ∧
    (run_automation configMissingDestSecret false []).2.spawned = false :=
  C5_missing_key_fails_fast configMissingDestSecret false [] "dest_secret"
    (by decide) (by decide)
